import Mathlib

/-!
The vigil privileged helper (`src/helper/helper.c`).

A shallow embedding of the helper daemon: the three C functions
`apply_ruleset`, `resolve_socket_path` and the accept loop of `main`.

Conventions of the embedding.

* A byte is a natural number; a region of C memory is a `List Byte`.
  A `const char *` is the region it points to, read as a C string: the
  bytes before the first NUL (`cstr`), of length `strlen`.
* The kernel is an explicit environment: each value a system call returns
  to the program is a field of an environment record, and each function of
  the program yields the ordered list of system calls it issues (`Sys`).
* Diagnostics printed on stderr (`log_msg`, `log_err`, `fprintf`) touch no
  modelled state and are left out of the call lists.
-/

namespace Vigil

/-! ## Bytes and C strings -/

abbrev Byte := Nat

/-- The bytes of a C string stored in `mem`: everything before the first NUL. -/
def cstr (mem : List Byte) : List Byte :=
  mem.takeWhile (fun b => b != 0)

/-- C `strlen`. -/
def strlen (mem : List Byte) : Nat :=
  (cstr mem).length

/-- ASCII codes of a string literal of the source. -/
def ascii (s : String) : List Byte :=
  s.toList.map Char.toNat

/-- The constant `DEFAULT_SOCKET_PATH`, defined as "/tmp/vigil.sock". -/
def DEFAULT_SOCKET_PATH : List Byte :=
  ascii "/tmp/vigil.sock"

/-- The constant `BUF_SIZE`, defined as 8192. -/
def BUF_SIZE : Nat := 8192

/-! ## resolve_socket_path -/

/-- C `strncpy(dst, src, n)`: the `n` bytes stored at `dst`, namely the first
`n` bytes of the C string `src`, padded with NUL up to `n` bytes. -/
def strncpy (src : List Byte) (n : Nat) : List Byte :=
  (cstr src).take n ++ List.replicate (n - strlen src) 0

/-- The function `resolve_socket_path(buffer, buf_size)`.  `env_path` is the
result of `getenv("VIGIL_SOCKET_PATH")`: `none` for a null pointer, otherwise
the memory the pointer refers to.  The result is the content of the `buf_size`
bytes of `buffer` on return: the `buf_size - 1` bytes stored by `strncpy`, then
the NUL stored at `buffer[buf_size - 1]`.  `none` stands for `buf_size = 0`,
where `buf_size - 1` wraps around and the function writes outside the buffer. -/
def resolve_socket_path (env_path : Option (List Byte)) (buf_size : Nat) :
    Option (List Byte) :=
  let chosen : List Byte :=
    match env_path with
    | some p => if p.headD 0 != 0 then p else DEFAULT_SOCKET_PATH
    | none => DEFAULT_SOCKET_PATH
  let chosen := if strlen chosen ≥ buf_size then DEFAULT_SOCKET_PATH else chosen
  if buf_size = 0 then none
  else some (strncpy chosen (buf_size - 1) ++ [0])

/-- The path the specification prescribes (this definition follows the words of
the specification, not the source): the override when it is set, non-empty and
strictly shorter than the buffer, the default otherwise.  The override is the C
string found at the pointer `getenv` returns. -/
def expected_socket_path (env_path : Option (List Byte)) (buf_size : Nat) : List Byte :=
  match env_path with
  | some p => if cstr p ≠ [] ∧ strlen p < buf_size then cstr p else DEFAULT_SOCKET_PATH
  | none => DEFAULT_SOCKET_PATH

/-! ## System calls and the kernel environment -/

/-- The constant `STDIN_FILENO` of `<unistd.h>`. -/
def STDIN_FILENO : Nat := 0

/-- The constant `EXIT_FAILURE` of `<stdlib.h>`. -/
def EXIT_FAILURE : Nat := 1

/-- The test `WIFEXITED(status)` as Linux `<sys/wait.h>` defines it: `(status & 0x7f) == 0`. -/
def WIFEXITED (status : Nat) : Bool := status % 128 == 0

/-- The value `WEXITSTATUS(status)` as Linux `<sys/wait.h>` defines it: `(status & 0xff00) >> 8`. -/
def WEXITSTATUS (status : Nat) : Nat := (status / 256) % 256

/-- One system call issued by a process, with the value the kernel returned.
`none` stands for a return value of -1 where the call yields descriptors or a
process id. -/
inductive Sys where
  | pipe (ret : Option (Nat × Nat))
  | fork (ret : Option Nat)
  | close (fd : Nat)
  | dup2 (oldfd newfd : Nat)
  | execlp (file : String) (argv : List String)
  | exit (code : Nat)
  | write (fd : Nat) (buf : List Byte) (ret : Int)
  | access (path : String) (ret : Int)
  | waitpid (pid : Nat) (status : Nat)
  | accept (ret : Option Nat)
  | read (fd : Nat) (count : Nat) (ret : Int)
  deriving DecidableEq

/-- What the kernel answers during one call of `apply_ruleset`. -/
structure ApplyEnv where
  /-- Answer to `pipe(pipefd)`: the descriptors `(pipefd[0], pipefd[1])`, or `none` for -1. -/
  pipe_ret : Option (Nat × Nat)
  /-- Answer to `fork()` in the parent: the pid of the child, or `none` for -1. -/
  fork_ret : Option Nat
  /-- Whether `execlp` fails, that is returns, in the child. -/
  exec_fails : Bool
  /-- The `k`-th `write` on the pipe (counted from 0): `none` is an error (-1),
  `some room` is a pipe that takes at most `room` bytes at that moment. -/
  pipe_write : Nat → Option Nat
  /-- Answer to `access("/usr/sbin/nft", X_OK)`. -/
  access_ret : Int
  /-- The wait status stored by `waitpid`. -/
  status : Nat

/-- Return value of `write(fd, buf, count)` for one answer of the kernel. -/
def sys_write (answer : Option Nat) (count : Nat) : Int :=
  match answer with
  | none => -1
  | some room => (min room count : Nat)

/-- Return value of `read(fd, buffer, count)` and the buffer afterwards.
`incoming` is `none` when the read fails with -1, otherwise the bytes the
connection holds at that moment (none at all at end of stream). -/
def sys_read (incoming : Option (List Byte)) (buffer : List Byte) (count : Nat) :
    Int × List Byte :=
  match incoming with
  | none => (-1, buffer)
  | some avail =>
    let got := avail.take count
    ((got.length : Nat), got ++ buffer.drop got.length)

/-! ## apply_ruleset -/

/-- The child branch of `apply_ruleset` (`pid == 0`): the calls the child makes. -/
def child_process (pipefd : Nat × Nat) (exec_fails : Bool) : List Sys :=
  [Sys.close pipefd.2,
   Sys.dup2 pipefd.1 STDIN_FILENO,
   Sys.close pipefd.1,
   Sys.execlp "nft" ["nft", "-f", "-"]]
  ++ (if exec_fails then [Sys.exit EXIT_FAILURE] else [])

/-- The loop `while (total_written < strlen(ruleset))` of the parent, run for at
most `fuel` iterations; `k` counts the writes made so far.  The result is the
list of `write` calls and whether the loop was left (by its condition or by
`break`).  `total_written` is never negative, so comparing it with the unsigned
`strlen` is the comparison of integers. -/
def write_loop (pipe_write : Nat → Option Nat) (fd : Nat) (ruleset : List Byte) :
    Nat → Nat → Int → List Sys × Bool
  | 0, _, total_written => ([], !decide (total_written < (strlen ruleset : Int)))
  | fuel + 1, k, total_written =>
    if total_written < (strlen ruleset : Int) then
      let count := ((strlen ruleset : Int) - total_written).toNat
      let buf := (ruleset.drop total_written.toNat).take count
      let written := sys_write (pipe_write k) count
      if written < 0 then
        ([Sys.write fd buf written], true)
      else
        let rest := write_loop pipe_write fd ruleset fuel (k + 1) (total_written + written)
        (Sys.write fd buf written :: rest.1, rest.2)
    else ([], true)

/-- Outcome of one call of `apply_ruleset`. -/
structure Applied where
  /-- The value returned; `none` while the write loop has not been left. -/
  ret : Option Int
  /-- System calls of the calling process, in order. -/
  parent : List Sys
  /-- System calls of the forked child, in order; `none` when no child exists. -/
  child : Option (List Sys)
  deriving DecidableEq

/-- The function `apply_ruleset(ruleset)`. -/
def apply_ruleset (fuel : Nat) (env : ApplyEnv) (ruleset : List Byte) : Applied :=
  match env.pipe_ret with
  | none => ⟨some (-1), [Sys.pipe none], none⟩
  | some pipefd =>
    match env.fork_ret with
    | none =>
      ⟨some (-1),
       [Sys.pipe (some pipefd), Sys.fork none, Sys.close pipefd.1, Sys.close pipefd.2], none⟩
    | some pid =>
      let child := some (child_process pipefd env.exec_fails)
      let loop := write_loop env.pipe_write pipefd.2 ruleset fuel 0 0
      let upto := [Sys.pipe (some pipefd), Sys.fork (some pid), Sys.close pipefd.1] ++ loop.1
      if !loop.2 then ⟨none, upto, child⟩
      else if env.access_ret != 0 then
        ⟨some (-1), upto ++ [Sys.access "/usr/sbin/nft" env.access_ret], child⟩
      else
        let calls := upto ++ [Sys.access "/usr/sbin/nft" env.access_ret,
                              Sys.close pipefd.2,
                              Sys.waitpid pid env.status]
        if WIFEXITED env.status && WEXITSTATUS env.status == 0 then ⟨some 0, calls, child⟩
        else ⟨some (-1), calls, child⟩

/-! ## The accept loop of main -/

/-- What the kernel answers during one iteration of the accept loop. -/
structure Conn where
  /-- Answer to `accept(server_fd, NULL, NULL)`: the client descriptor, or `none` for -1. -/
  accept_ret : Option Nat
  /-- The answer to `read(client_fd, ...)`, see `sys_read`. -/
  incoming : Option (List Byte)
  /-- The answers to the call of `apply_ruleset`. -/
  apply_env : ApplyEnv
  /-- Return value of the `write` of the response, which the program ignores. -/
  reply_ret : Int

/-- The initial value of `char buffer[BUF_SIZE]`, all zero. -/
def zero_buffer : List Byte := List.replicate BUF_SIZE 0

/-- The value `bytes_read = read(client_fd, buffer, BUF_SIZE - 1)`. -/
def bytes_read (incoming : Option (List Byte)) : Int :=
  (sys_read incoming zero_buffer (BUF_SIZE - 1)).1

/-- The buffer passed to `apply_ruleset`: `buffer` after the read and after
`buffer[bytes_read] = 0`. -/
def request_buffer (incoming : Option (List Byte)) : List Byte :=
  (sys_read incoming zero_buffer (BUF_SIZE - 1)).2.set (bytes_read incoming).toNat 0

/-- System calls of the daemon and of the children it forked. -/
structure Run where
  /-- System calls of the daemon, in order. -/
  calls : List Sys
  /-- For each child forked, in order, the system calls of that child. -/
  children : List (List Sys)
  /-- Whether every iteration came to its end (no write loop still running). -/
  finished : Bool
  deriving DecidableEq

/-- One iteration of `while (1)` in `main`. -/
def main_loop_body (fuel : Nat) (c : Conn) : Run :=
  match c.accept_ret with
  | none => ⟨[Sys.accept none], [], true⟩
  | some client_fd =>
    let upto := [Sys.accept (some client_fd),
                 Sys.read client_fd (BUF_SIZE - 1) (bytes_read c.incoming)]
    if bytes_read c.incoming > 0 then
      let a := apply_ruleset fuel c.apply_env (request_buffer c.incoming)
      let children := a.child.toList
      match a.ret with
      | none => ⟨upto ++ a.parent, children, false⟩
      | some r =>
        if r == 0 then
          ⟨upto ++ a.parent ++ [Sys.write client_fd ((ascii "OK").take 2) c.reply_ret,
                                Sys.close client_fd], children, true⟩
        else
          ⟨upto ++ a.parent ++ [Sys.write client_fd ((ascii "FAIL").take 4) c.reply_ret,
                                Sys.close client_fd], children, true⟩
    else ⟨upto ++ [Sys.close client_fd], [], true⟩

/-- The loop `while (1)` of `main` over the connections of a run. -/
def main_loop (fuel : Nat) : List Conn → Run
  | [] => ⟨[], [], true⟩
  | c :: rest =>
    let it := main_loop_body fuel c
    if it.finished then
      let more := main_loop fuel rest
      ⟨it.calls ++ more.calls, it.children ++ more.children, more.finished⟩
    else it

/-! ## Observations on a list of system calls -/

/-- The `exec` calls of a process: program and argument vector. -/
def execs : List Sys → List (String × List String)
  | [] => []
  | Sys.execlp file argv :: rest => (file, argv) :: execs rest
  | _ :: rest => execs rest

/-- The bytes a process has put into descriptor `fd`: for each `write` on `fd`
that returned `ret ≥ 0`, the first `ret` bytes of its buffer. -/
def written_to (fd : Nat) : List Sys → List Byte
  | [] => []
  | Sys.write fd' buf ret :: rest =>
    (if fd' = fd then buf.take ret.toNat else []) ++ written_to fd rest
  | _ :: rest => written_to fd rest

/-- The buffers of the `write` calls a process made on descriptor `fd`. -/
def writes_on (fd : Nat) : List Sys → List (List Byte)
  | [] => []
  | Sys.write fd' buf _ :: rest =>
    (if fd' = fd then [buf] else []) ++ writes_on fd rest
  | _ :: rest => writes_on fd rest

/-- The descriptors open in a process after the calls, from those open before. -/
def open_fds (fds : List Nat) : List Sys → List Nat
  | [] => fds
  | Sys.pipe (some pipefd) :: rest => open_fds (fds ++ [pipefd.1, pipefd.2]) rest
  | Sys.accept (some fd) :: rest => open_fds (fds ++ [fd]) rest
  | Sys.close fd :: rest => open_fds (fds.erase fd) rest
  | _ :: rest => open_fds fds rest

/-- The children of a process that are forked and not yet waited on after the
calls, from those before. -/
def unreaped (pids : List Nat) : List Sys → List Nat
  | [] => pids
  | Sys.fork (some pid) :: rest => unreaped (pids ++ [pid]) rest
  | Sys.waitpid pid _ :: rest => unreaped (pids.erase pid) rest
  | _ :: rest => unreaped pids rest

/-! ## Concrete kernel answers used in the examples -/

/-- A kernel in which everything succeeds: the pipe is `(5, 6)`, the child is
process 100, each write takes up to 4096 bytes, the tool is present and the
child exits with code 0. -/
def env_ok : ApplyEnv :=
  ⟨some (5, 6), some 100, false, fun _ => some 4096, 0, 0⟩

/-- As `env_ok`, but every write on the pipe fails. -/
def env_write_error : ApplyEnv :=
  ⟨some (5, 6), some 100, false, fun _ => none, 0, 0⟩

/-- As `env_ok`, but `access` reports that the tool is missing. -/
def env_no_tool : ApplyEnv :=
  ⟨some (5, 6), some 100, true, fun _ => some 4096, -1, 256⟩

/-! ## Facts about C strings -/

theorem cstr_ne_zero (mem : List Byte) : ∀ b ∈ cstr mem, b ≠ 0 := by
  intro b hb
  have h := List.mem_takeWhile_imp hb
  simpa using h

theorem cstr_append_nul (l rest : List Byte) (h : ∀ b ∈ l, b ≠ 0) :
    cstr (l ++ 0 :: rest) = l := by
  induction l with
  | nil => simp [cstr, List.takeWhile]
  | cons a t ih =>
    have ha : a ≠ 0 := h a (List.mem_cons_self a t)
    have ht : ∀ b ∈ t, b ≠ 0 := fun b hb => h b (List.mem_cons_of_mem a hb)
    have := ih ht
    simp only [cstr] at this ⊢
    simp [List.takeWhile_cons, ha, this]

theorem cstr_append_nul_any (l rest : List Byte) : cstr (l ++ 0 :: rest) = cstr l := by
  induction l with
  | nil => simp [cstr, List.takeWhile]
  | cons a t ih =>
    simp only [cstr] at ih ⊢
    by_cases ha : a = 0 <;> simp [List.takeWhile_cons, ha, ih]

theorem cstr_of_no_nul (l : List Byte) (h : ∀ b ∈ l, b ≠ 0) : cstr l = l := by
  induction l with
  | nil => rfl
  | cons a t ih =>
    have ha : a ≠ 0 := h a (List.mem_cons_self a t)
    have ht : ∀ b ∈ t, b ≠ 0 := fun b hb => h b (List.mem_cons_of_mem a hb)
    have := ih ht
    simp only [cstr] at this ⊢
    simp [List.takeWhile_cons, ha, this]

theorem cstr_eq_nil_iff (mem : List Byte) : cstr mem = [] ↔ mem.headD 0 = 0 := by
  cases mem with
  | nil => simp [cstr]
  | cons a t =>
    by_cases ha : a = 0 <;> simp [cstr, List.takeWhile_cons, ha]

theorem replicate_zero_snoc (k : Nat) :
    List.replicate k (0 : Byte) ++ [0] = 0 :: List.replicate k 0 := by
  induction k with
  | zero => rfl
  | succ k ih => simp [List.replicate_succ, ih]

/-- The C string left in the buffer by `strncpy(buffer, src, n); buffer[n] = 0`
is `src` itself when `src` fits. -/
theorem cstr_strncpy_fits (src : List Byte) (n : Nat) (h : strlen src ≤ n) :
    cstr (strncpy src n ++ [0]) = cstr src := by
  unfold strncpy
  have htake : (cstr src).take n = cstr src := List.take_of_length_le h
  rw [htake, List.append_assoc, replicate_zero_snoc]
  exact cstr_append_nul _ _ (cstr_ne_zero src)

theorem length_strncpy (src : List Byte) (n : Nat) : (strncpy src n).length = n := by
  unfold strncpy strlen
  simp only [List.length_append, List.length_take, List.length_replicate]
  omega

/-! ## Socket path resolution -/

/-- C9. For every value of VIGIL_SOCKET_PATH (unset, empty or any string) and
every buffer size greater than the length of the default path,
`resolve_socket_path` returns a buffer of that size whose C string is the
override when the override is set, non-empty and strictly shorter than the
buffer size, and the default path otherwise; the string always ends inside the
buffer (its length is below the buffer size). -/
theorem resolve_socket_path_spec (env_path : Option (List Byte)) (buf_size : Nat)
    (hsize : strlen DEFAULT_SOCKET_PATH < buf_size) :
    ∃ buffer, resolve_socket_path env_path buf_size = some buffer ∧
      buffer.length = buf_size ∧
      cstr buffer = expected_socket_path env_path buf_size ∧
      strlen buffer < buf_size := by
  have hpos : buf_size ≠ 0 := by omega
  have hdef : cstr DEFAULT_SOCKET_PATH = DEFAULT_SOCKET_PATH := by decide
  -- the string finally copied, whatever the branch, fits in `buf_size - 1` bytes
  have key : ∀ chosen : List Byte, strlen chosen < buf_size →
      (strncpy chosen (buf_size - 1) ++ [0]).length = buf_size ∧
      cstr (strncpy chosen (buf_size - 1) ++ [0]) = cstr chosen ∧
      strlen (strncpy chosen (buf_size - 1) ++ [0]) < buf_size := by
    intro chosen hc
    have hfit : strlen chosen ≤ buf_size - 1 := by omega
    have h2 := cstr_strncpy_fits chosen (buf_size - 1) hfit
    refine ⟨?_, h2, ?_⟩
    · rw [List.length_append, length_strncpy]; simp; omega
    · unfold strlen at hc ⊢; rw [h2]; exact hc
  have keydef := key DEFAULT_SOCKET_PATH hsize
  rw [hdef] at keydef
  cases env_path with
  | none =>
    refine ⟨_, ?_, keydef.1, keydef.2.1, keydef.2.2⟩
    simp [resolve_socket_path, hpos, Nat.not_le.mpr hsize]
  | some p =>
    by_cases hhead : p.headD 0 = 0
    · have hh : p.head?.getD 0 = 0 := by simpa using hhead
      have hnil : cstr p = [] := (cstr_eq_nil_iff p).mpr hhead
      refine ⟨_, ?_, keydef.1, ?_, keydef.2.2⟩
      · simp [resolve_socket_path, hpos, hh, Nat.not_le.mpr hsize]
      · rw [keydef.2.1]; simp [expected_socket_path, hnil]
    · have hh : ¬ p.head?.getD 0 = 0 := by simpa using hhead
      have hnil : cstr p ≠ [] := fun h => hhead ((cstr_eq_nil_iff p).mp h)
      by_cases hlen : strlen p < buf_size
      · have kp := key p hlen
        refine ⟨_, ?_, kp.1, ?_, kp.2.2⟩
        · simp [resolve_socket_path, hpos, hh, Nat.not_le.mpr hlen]
        · rw [kp.2.1]; simp [expected_socket_path, hnil, hlen]
      · refine ⟨_, ?_, keydef.1, ?_, keydef.2.2⟩
        · simp [resolve_socket_path, hpos, hh, Nat.le_of_not_lt hlen]
        · rw [keydef.2.1]; simp [expected_socket_path, hlen]

/-- C9 at a concrete input: an override of 19 bytes in a 20-byte buffer. -/
theorem resolve_socket_path_spec_witness :
    strlen DEFAULT_SOCKET_PATH < 20 ∧
    ∃ buffer, resolve_socket_path (some (List.replicate 19 65)) 20 = some buffer ∧
      buffer.length = 20 ∧
      cstr buffer = expected_socket_path (some (List.replicate 19 65)) 20 ∧
      strlen buffer < 20 :=
  ⟨by decide, resolve_socket_path_spec (some (List.replicate 19 65)) 20 (by decide)⟩

/-! ## The write loop -/

theorem take_drop_append (a rest : List Byte) (t c : Nat) (h : t + c ≤ a.length) :
    ((a ++ rest).drop t).take c = (a.drop t).take c := by
  rw [List.drop_append_of_le_length (by omega),
      List.take_append_of_le_length (by rw [List.length_drop]; omega)]

/-- Reading `c` bytes at offset `t` of a C string in memory stays inside the string. -/
theorem take_drop_cstr (mem : List Byte) (t c : Nat) (h : t + c ≤ strlen mem) :
    (mem.drop t).take c = ((cstr mem).drop t).take c := by
  have hsplit : cstr mem ++ mem.dropWhile (fun b => b != 0) = mem :=
    List.takeWhile_append_dropWhile _ _
  have := take_drop_append (cstr mem) (mem.dropWhile (fun b => b != 0)) t c h
  rw [hsplit] at this
  exact this

/-- The write loop is left within `strlen ruleset` iterations when no write
returns 0. -/
theorem write_loop_ends (pw : Nat → Option Nat) (fd : Nat) (ruleset : List Byte)
    (hprog : ∀ k, pw k ≠ some 0) :
    ∀ (fuel k t : Nat), t ≤ strlen ruleset → strlen ruleset - t ≤ fuel →
      (write_loop pw fd ruleset fuel k (t : Int)).2 = true := by
  intro fuel
  induction fuel with
  | zero =>
    intro k t ht hfuel
    have : ¬ ((t : Int) < (strlen ruleset : Int)) := by omega
    simp [write_loop, this]
  | succ fuel ih =>
    intro k t ht hfuel
    unfold write_loop
    by_cases hlt : (t : Int) < (strlen ruleset : Int)
    · simp only [hlt, if_true]
      cases hpw : pw k with
      | none => simp [sys_write]
      | some room =>
        have hroom : room ≠ 0 := fun h => hprog k (by rw [hpw, h])
        have hcount : ((strlen ruleset : Int) - (t : Int)).toNat = strlen ruleset - t := by omega
        have hnonneg : ¬ (((min room (strlen ruleset - t) : Nat) : Int) < 0) := by omega
        simp only [sys_write, hcount, hnonneg, if_false]
        have hcast : (t : Int) + ((min room (strlen ruleset - t) : Nat) : Int)
            = ((t + min room (strlen ruleset - t) : Nat) : Int) := by push_cast; rfl
        rw [hcast]
        exact ih (k + 1) (t + min room (strlen ruleset - t)) (by omega) (by omega)
    · simp [hlt]

/-- When no write fails and the loop is left, the bytes put into the pipe from
offset `t` on are the rest of the C string (writes that return 0 included). -/
theorem write_loop_written (pw : Nat → Option Nat) (fd : Nat) (ruleset : List Byte)
    (hnoerr : ∀ k, pw k ≠ none) :
    ∀ (fuel k t : Nat), t ≤ strlen ruleset →
      (write_loop pw fd ruleset fuel k (t : Int)).2 = true →
      written_to fd (write_loop pw fd ruleset fuel k (t : Int)).1 = (cstr ruleset).drop t := by
  intro fuel
  induction fuel with
  | zero =>
    intro k t ht hdone
    have hge : ¬ ((t : Int) < (strlen ruleset : Int)) := by
      intro hlt; simp [write_loop, hlt] at hdone
    have hlen : (cstr ruleset).length ≤ t := by
      have : ¬ t < strlen ruleset := by omega
      unfold strlen at this; omega
    simp [write_loop, written_to, List.drop_eq_nil_of_le hlen]
  | succ fuel ih =>
    intro k t ht hdone
    unfold write_loop at hdone ⊢
    by_cases hlt : (t : Int) < (strlen ruleset : Int)
    · simp only [hlt, if_true] at hdone ⊢
      cases hpw : pw k with
      | none => exact absurd hpw (hnoerr k)
      | some room =>
        have hcount : ((strlen ruleset : Int) - (t : Int)).toNat = strlen ruleset - t := by omega
        have hnonneg : ¬ (((min room (strlen ruleset - t) : Nat) : Int) < 0) := by omega
        simp only [hpw, sys_write, hcount, hnonneg, if_false] at hdone ⊢
        have hcast : (t : Int) + ((min room (strlen ruleset - t) : Nat) : Int)
            = ((t + min room (strlen ruleset - t) : Nat) : Int) := by push_cast; rfl
        rw [hcast] at hdone ⊢
        have hrec := ih (k + 1) (t + min room (strlen ruleset - t)) (by omega) hdone
        simp only [written_to, if_true, Int.toNat_ofNat, Int.toNat_natCast, hrec]
        rw [List.take_take, Nat.min_assoc, Nat.min_self,
            take_drop_cstr ruleset t _ (by omega), ← List.drop_drop, List.take_append_drop]
    · have hlen : (cstr ruleset).length ≤ t := by
        have : ¬ t < strlen ruleset := by omega
        unfold strlen at this; omega
      simp [hlt, written_to, List.drop_eq_nil_of_le hlen]

theorem execs_append (l₁ l₂ : List Sys) : execs (l₁ ++ l₂) = execs l₁ ++ execs l₂ := by
  induction l₁ with
  | nil => rfl
  | cons a t ih => cases a <;> simp [execs, ih]

theorem writes_on_append (fd : Nat) (l₁ l₂ : List Sys) :
    writes_on fd (l₁ ++ l₂) = writes_on fd l₁ ++ writes_on fd l₂ := by
  induction l₁ with
  | nil => rfl
  | cons a t ih => cases a <;> simp [writes_on, ih]

theorem written_to_append (fd : Nat) (l₁ l₂ : List Sys) :
    written_to fd (l₁ ++ l₂) = written_to fd l₁ ++ written_to fd l₂ := by
  induction l₁ with
  | nil => rfl
  | cons a t ih => cases a <;> simp [written_to, ih]

/-- The write loop makes no `exec` call. -/
theorem execs_write_loop (pw : Nat → Option Nat) (fd : Nat) (ruleset : List Byte) :
    ∀ (fuel k : Nat) (t : Int), execs (write_loop pw fd ruleset fuel k t).1 = [] := by
  intro fuel
  induction fuel with
  | zero => intro k t; simp [write_loop, execs]
  | succ fuel ih =>
    intro k t
    unfold write_loop
    by_cases hlt : t < (strlen ruleset : Int)
    · by_cases hw : sys_write (pw k) ((strlen ruleset : Int) - t).toNat < 0
      · simp [hlt, hw, execs]
      · simp [hlt, hw, execs, ih]
    · simp [hlt, execs]

/-- The write loop writes on the pipe only. -/
theorem writes_on_write_loop (pw : Nat → Option Nat) (fd other : Nat) (ruleset : List Byte)
    (hne : fd ≠ other) :
    ∀ (fuel k : Nat) (t : Int), writes_on other (write_loop pw fd ruleset fuel k t).1 = [] := by
  intro fuel
  induction fuel with
  | zero => intro k t; simp [write_loop, writes_on]
  | succ fuel ih =>
    intro k t
    unfold write_loop
    by_cases hlt : t < (strlen ruleset : Int)
    · by_cases hw : sys_write (pw k) ((strlen ruleset : Int) - t).toNat < 0
      · simp [hlt, hw, writes_on, hne]
      · simp [hlt, hw, writes_on, hne, ih]
    · simp [hlt, writes_on]

/-! ## The request buffer -/

theorem set_zero_after (got : List Byte) (m : Nat) :
    (got ++ List.replicate (m + 1) 0).set got.length 0 = got ++ List.replicate (m + 1) 0 := by
  induction got with
  | nil => simp [List.replicate_succ]
  | cons a t ih => simp [ih]

/-- After the read and the NUL termination the buffer holds the bytes read,
followed by NUL bytes up to `BUF_SIZE`. -/
theorem request_buffer_some (avail : List Byte) :
    request_buffer (some avail) =
      avail.take (BUF_SIZE - 1) ++
        List.replicate (BUF_SIZE - 1 - (avail.take (BUF_SIZE - 1)).length + 1) 0 := by
  have hlen : (avail.take (BUF_SIZE - 1)).length ≤ BUF_SIZE - 1 := by
    rw [List.length_take]; exact Nat.min_le_left _ _
  have hsub : BUF_SIZE - (avail.take (BUF_SIZE - 1)).length
      = BUF_SIZE - 1 - (avail.take (BUF_SIZE - 1)).length + 1 := by
    have : 1 ≤ BUF_SIZE := by decide
    omega
  simp only [request_buffer, bytes_read, sys_read, zero_buffer, List.drop_replicate,
    Int.toNat_ofNat]
  rw [hsub]
  exact set_zero_after _ _

theorem bytes_read_some (avail : List Byte) :
    bytes_read (some avail) = ((avail.take (BUF_SIZE - 1)).length : Nat) := rfl

/-- The C string `apply_ruleset` sees is the request up to its first NUL. -/
theorem cstr_request_buffer (avail : List Byte) :
    cstr (request_buffer (some avail)) = cstr (avail.take (BUF_SIZE - 1)) := by
  rw [request_buffer_some, List.replicate_succ]
  exact cstr_append_nul_any _ _

theorem strlen_cstr_le (mem : List Byte) : strlen mem ≤ mem.length := by
  unfold strlen cstr
  exact (List.takeWhile_sublist _).length_le

theorem strlen_request_buffer_le (avail : List Byte) :
    strlen (request_buffer (some avail)) ≤ BUF_SIZE - 1 := by
  unfold strlen
  rw [cstr_request_buffer]
  have h1 := strlen_cstr_le (avail.take (BUF_SIZE - 1))
  have h2 : (avail.take (BUF_SIZE - 1)).length ≤ BUF_SIZE - 1 := by
    rw [List.length_take]; exact Nat.min_le_left _ _
  unfold strlen at h1
  omega

/-! ## C1: the command line is constant -/

theorem apply_ruleset_child (fuel : Nat) (env : ApplyEnv) (ruleset : List Byte) :
    (apply_ruleset fuel env ruleset).child =
      match env.pipe_ret, env.fork_ret with
      | some pipefd, some _ => some (child_process pipefd env.exec_fails)
      | _, _ => none := by
  unfold apply_ruleset
  cases env.pipe_ret with
  | none => rfl
  | some pipefd =>
    cases env.fork_ret with
    | none => rfl
    | some pid =>
      simp only []
      split
      · rfl
      · split
        · rfl
        · split <;> rfl

theorem execs_child_process (pipefd : Nat × Nat) (exec_fails : Bool) :
    execs (child_process pipefd exec_fails) = [("nft", ["nft", "-f", "-"])] := by
  cases exec_fails <;> rfl

theorem apply_ruleset_parent_execs (fuel : Nat) (env : ApplyEnv) (ruleset : List Byte) :
    execs (apply_ruleset fuel env ruleset).parent = [] := by
  unfold apply_ruleset
  cases env.pipe_ret with
  | none => rfl
  | some pipefd =>
    cases env.fork_ret with
    | none => rfl
    | some pid =>
      simp only []
      split
      · simp [execs_append, execs_write_loop, execs]
      · split
        · simp [execs_append, execs_write_loop, execs]
        · split <;> simp [execs_append, execs_write_loop, execs]

/-- C1. Injection safety: whatever the request payload, the only `exec` call
made on behalf of `apply_ruleset` is the one of its child, with program `nft`
and argument vector `nft -f -`.  For any two payloads (and any numbers of loop
iterations) the child makes the same system calls, so the payload reaches
neither the executable name nor its arguments; the parent makes no `exec` call. -/
theorem exec_is_constant (fuel₁ fuel₂ : Nat) (env : ApplyEnv) (p₁ p₂ : List Byte) :
    (apply_ruleset fuel₁ env p₁).child = (apply_ruleset fuel₂ env p₂).child ∧
    execs (apply_ruleset fuel₁ env p₁).parent = [] ∧
    execs ((apply_ruleset fuel₁ env p₁).child.getD []) =
      (if env.pipe_ret.isSome && env.fork_ret.isSome
       then [("nft", ["nft", "-f", "-"])] else []) := by
  refine ⟨?_, apply_ruleset_parent_execs fuel₁ env p₁, ?_⟩
  · rw [apply_ruleset_child, apply_ruleset_child]
  · rw [apply_ruleset_child]
    cases env.pipe_ret with
    | none => rfl
    | some pipefd =>
      cases env.fork_ret with
      | none => rfl
      | some pid => simp [execs_child_process]

/-! ## C2: what reaches the standard input of the child -/

theorem apply_ruleset_written (fuel : Nat) (env : ApplyEnv) (ruleset : List Byte)
    (pipefd : Nat × Nat) (pid : Nat)
    (hpipe : env.pipe_ret = some pipefd) (hfork : env.fork_ret = some pid) :
    written_to pipefd.2 (apply_ruleset fuel env ruleset).parent =
      written_to pipefd.2 (write_loop env.pipe_write pipefd.2 ruleset fuel 0 0).1 := by
  unfold apply_ruleset
  simp only [hpipe, hfork]
  split
  · simp [written_to_append, written_to]
  · split
    · simp [written_to_append, written_to]
    · split <;> simp [written_to_append, written_to]

theorem apply_ruleset_returns (fuel : Nat) (env : ApplyEnv) (ruleset : List Byte)
    (hprog : ∀ k, env.pipe_write k ≠ some 0) (hfuel : strlen ruleset ≤ fuel) :
    (apply_ruleset fuel env ruleset).ret ≠ none := by
  have hend := write_loop_ends env.pipe_write
  unfold apply_ruleset
  cases env.pipe_ret with
  | none => simp
  | some pipefd =>
    cases env.fork_ret with
    | none => simp
    | some pid =>
      have h := hend pipefd.2 ruleset hprog fuel 0 0 (Nat.zero_le _) (by omega)
      simp only [Nat.cast_zero] at h
      simp only [h]
      split
      · simp at *
      · split
        · simp
        · split <;> simp

/-- C2 as stated fails on a request of three bytes with a NUL in the middle:
all three bytes are read, no write fails, the call returns 0, and only the
first byte reaches the pipe. -/
theorem stream_stops_at_nul :
    bytes_read (some [65, 0, 66]) = 3 ∧
    (apply_ruleset 3 env_ok (request_buffer (some [65, 0, 66]))).ret = some 0 ∧
    written_to 6 (apply_ruleset 3 env_ok (request_buffer (some [65, 0, 66]))).parent = [65] ∧
    written_to 6 (apply_ruleset 3 env_ok (request_buffer (some [65, 0, 66]))).parent
      ≠ [65, 0, 66] := by
  decide

/-- C2 (amended). For every request read from a connection and every sequence
of partial pipe writes in which each write is accepted at least in part, the
call returns and the bytes `apply_ruleset` puts into the pipe are the bytes
read up to, and without, their first NUL byte, in order; for a request without
a NUL byte they are the full request read. -/
theorem stream_is_request_cstr (fuel : Nat) (env : ApplyEnv) (avail : List Byte)
    (pipefd : Nat × Nat) (pid : Nat)
    (hpipe : env.pipe_ret = some pipefd) (hfork : env.fork_ret = some pid)
    (hprog : ∀ k, ∃ room, env.pipe_write k = some room ∧ 0 < room)
    (hfuel : BUF_SIZE ≤ fuel) :
    (apply_ruleset fuel env (request_buffer (some avail))).ret ≠ none ∧
    written_to pipefd.2 (apply_ruleset fuel env (request_buffer (some avail))).parent
      = cstr (avail.take (BUF_SIZE - 1)) ∧
    ((∀ b ∈ avail.take (BUF_SIZE - 1), b ≠ 0) →
      written_to pipefd.2 (apply_ruleset fuel env (request_buffer (some avail))).parent
        = avail.take (BUF_SIZE - 1)) := by
  have hlen := strlen_request_buffer_le avail
  have hfuel' : strlen (request_buffer (some avail)) ≤ fuel := by omega
  have hprog' : ∀ k, env.pipe_write k ≠ some 0 := by
    intro k h0
    obtain ⟨room, hr, hpos⟩ := hprog k
    rw [hr] at h0
    injection h0 with h0
    omega
  have hnoerr : ∀ k, env.pipe_write k ≠ none := by
    intro k h0
    obtain ⟨room, hr, _⟩ := hprog k
    rw [hr] at h0
    exact Option.noConfusion h0
  have hdone := write_loop_ends env.pipe_write pipefd.2 (request_buffer (some avail)) hprog'
    fuel 0 0 (Nat.zero_le _) (by omega)
  have hw : written_to pipefd.2
      (apply_ruleset fuel env (request_buffer (some avail))).parent
      = cstr (avail.take (BUF_SIZE - 1)) := by
    rw [apply_ruleset_written fuel env _ pipefd pid hpipe hfork]
    have := write_loop_written env.pipe_write pipefd.2 (request_buffer (some avail)) hnoerr
      fuel 0 0 (Nat.zero_le _) hdone
    simp only [Nat.cast_zero, List.drop_zero] at this
    rw [this, cstr_request_buffer]
  refine ⟨apply_ruleset_returns fuel env _ hprog' hfuel', hw, ?_⟩
  intro hnul
  rw [hw, cstr_of_no_nul _ hnul]

/-- C2 (amended) at a concrete input: the request `AB` with `env_ok`. -/
theorem stream_is_request_cstr_witness :
    (apply_ruleset 8192 env_ok (request_buffer (some [65, 66]))).ret ≠ none ∧
    written_to 6 (apply_ruleset 8192 env_ok (request_buffer (some [65, 66]))).parent
      = cstr ([65, 66].take (BUF_SIZE - 1)) ∧
    ((∀ b ∈ [65, 66].take (BUF_SIZE - 1), b ≠ 0) →
      written_to 6 (apply_ruleset 8192 env_ok (request_buffer (some [65, 66]))).parent
        = [65, 66].take (BUF_SIZE - 1)) :=
  stream_is_request_cstr 8192 env_ok [65, 66] (5, 6) 100 rfl rfl
    (fun _ => ⟨4096, rfl, by decide⟩) (Nat.le_refl _)

/-! ## C3: classification of the wait status -/

/-- C3. For every call of `apply_ruleset` in which pipe creation, fork and the
check of the tool succeed (and no write returns 0, so that the write loop is
left), the call returns; it returns 0 exactly when the wait status says that
the child exited normally with exit code zero, and -1 for every other wait
status. -/
theorem termination_classification (fuel : Nat) (env : ApplyEnv) (ruleset : List Byte)
    (pipefd : Nat × Nat) (pid : Nat)
    (hpipe : env.pipe_ret = some pipefd) (hfork : env.fork_ret = some pid)
    (haccess : env.access_ret = 0)
    (hprog : ∀ k, env.pipe_write k ≠ some 0) (hfuel : strlen ruleset ≤ fuel) :
    ∃ r, (apply_ruleset fuel env ruleset).ret = some r ∧
      (r = 0 ↔ (WIFEXITED env.status = true ∧ WEXITSTATUS env.status = 0)) ∧
      (r = 0 ∨ r = -1) := by
  have h := write_loop_ends env.pipe_write pipefd.2 ruleset hprog fuel 0 0
    (Nat.zero_le _) (by omega)
  simp only [Nat.cast_zero] at h
  unfold apply_ruleset
  simp only [hpipe, hfork, h, haccess]
  by_cases hst : WIFEXITED env.status = true ∧ WEXITSTATUS env.status = 0
  · refine ⟨0, ?_, ?_, Or.inl rfl⟩
    · simp [hst.1, hst.2]
    · simp [hst]
  · refine ⟨-1, ?_, ?_, Or.inr rfl⟩
    · have : (WIFEXITED env.status && WEXITSTATUS env.status == 0) = false := by
        simp only [not_and] at hst
        cases hw : WIFEXITED env.status
        · simp
        · simp [hst hw]
      simp [this]
    · simp [hst]

/-- C3 at a concrete input: a child killed by signal 9 gives -1. -/
theorem termination_classification_witness :
    ∃ r, (apply_ruleset 1 ⟨some (5, 6), some 100, false, fun _ => some 4096, 0, 9⟩ [65]).ret
        = some r ∧
      (r = 0 ↔ (WIFEXITED 9 = true ∧ WEXITSTATUS 9 = 0)) ∧
      (r = 0 ∨ r = -1) :=
  termination_classification 1 ⟨some (5, 6), some 100, false, fun _ => some 4096, 0, 9⟩ [65]
    (5, 6) 100 rfl rfl rfl (fun _ => by simp) (by decide)

/-! ## C4: the response token -/

theorem apply_ruleset_ret_values (fuel : Nat) (env : ApplyEnv) (ruleset : List Byte) (r : Int)
    (hret : (apply_ruleset fuel env ruleset).ret = some r) : r = 0 ∨ r = -1 := by
  unfold apply_ruleset at hret
  cases hp : env.pipe_ret with
  | none => simp [hp] at hret; exact Or.inr hret.symm
  | some pipefd =>
    cases hf : env.fork_ret with
    | none => simp [hp, hf] at hret; exact Or.inr hret.symm
    | some pid =>
      simp only [hp, hf] at hret
      split at hret
      · simp at hret
      · split at hret
        · simp at hret; exact Or.inr hret.symm
        · split at hret
          · simp at hret; exact Or.inl hret.symm
          · simp at hret; exact Or.inr hret.symm

/-- The calls of `apply_ruleset` write on the pipe only. -/
theorem writes_on_apply_ruleset (fuel : Nat) (env : ApplyEnv) (ruleset : List Byte) (fd : Nat)
    (hfresh : ∀ pipefd, env.pipe_ret = some pipefd → pipefd.2 ≠ fd) :
    writes_on fd (apply_ruleset fuel env ruleset).parent = [] := by
  unfold apply_ruleset
  cases hp : env.pipe_ret with
  | none => rfl
  | some pipefd =>
    have hne : pipefd.2 ≠ fd := hfresh pipefd hp
    have hloop := writes_on_write_loop env.pipe_write pipefd.2 fd ruleset hne fuel 0 0
    cases hf : env.fork_ret with
    | none => rfl
    | some pid =>
      simp only []
      split
      · simp [writes_on_append, writes_on, hloop]
      · split
        · simp [writes_on_append, writes_on, hloop]
        · split <;> simp [writes_on_append, writes_on, hloop]

/-- C4. For every accepted connection whose read returns a positive byte count
and whose call of `apply_ruleset` returns `r`, the daemon, after the calls of
`apply_ruleset`, makes one write on the connection and closes it.  The buffer
of that write, the only write on the connection, is the 2 bytes `OK` when
`r = 0` and the 4 bytes `FAIL` when `r = -1`, the two values `apply_ruleset`
can return.  (The descriptors of the pipe differ from that of the connection,
which is open while the pipe is created.) -/
theorem response_token (fuel : Nat) (c : Conn) (client_fd : Nat) (r : Int)
    (hacc : c.accept_ret = some client_fd)
    (hread : 0 < bytes_read c.incoming)
    (hret : (apply_ruleset fuel c.apply_env (request_buffer c.incoming)).ret = some r)
    (hfresh : ∀ pipefd, c.apply_env.pipe_ret = some pipefd → pipefd.2 ≠ client_fd) :
    (main_loop_body fuel c).calls =
      [Sys.accept (some client_fd),
       Sys.read client_fd (BUF_SIZE - 1) (bytes_read c.incoming)]
      ++ (apply_ruleset fuel c.apply_env (request_buffer c.incoming)).parent
      ++ [Sys.write client_fd (if r = 0 then ascii "OK" else ascii "FAIL") c.reply_ret,
          Sys.close client_fd] ∧
    writes_on client_fd (main_loop_body fuel c).calls =
      [if r = 0 then ascii "OK" else ascii "FAIL"] ∧
    (r = 0 ∨ r = -1) ∧
    (ascii "OK").length = 2 ∧ (ascii "FAIL").length = 4 := by
  have hcalls : (main_loop_body fuel c).calls =
      [Sys.accept (some client_fd),
       Sys.read client_fd (BUF_SIZE - 1) (bytes_read c.incoming)]
      ++ (apply_ruleset fuel c.apply_env (request_buffer c.incoming)).parent
      ++ [Sys.write client_fd (if r = 0 then ascii "OK" else ascii "FAIL") c.reply_ret,
          Sys.close client_fd] := by
    unfold main_loop_body
    simp only [hacc, gt_iff_lt, hread, if_true, hret]
    by_cases hr : r = 0
    · have hok : (ascii "OK").take 2 = ascii "OK" := by decide
      simp [hr, hok]
    · have hfail : (ascii "FAIL").take 4 = ascii "FAIL" := by decide
      simp [hr, hfail]
  refine ⟨hcalls, ?_, apply_ruleset_ret_values _ _ _ r hret, by decide, by decide⟩
  rw [hcalls]
  simp [writes_on_append, writes_on, writes_on_apply_ruleset fuel c.apply_env _ client_fd hfresh]

/-- C4 at a concrete input: the request `A` on descriptor 4 with `env_ok`. -/
theorem response_token_witness :
    (main_loop_body 1 ⟨some 4, some [65], env_ok, 2⟩).calls =
      [Sys.accept (some 4), Sys.read 4 (BUF_SIZE - 1) (bytes_read (some [65]))]
      ++ (apply_ruleset 1 env_ok (request_buffer (some [65]))).parent
      ++ [Sys.write 4 (if (0 : Int) = 0 then ascii "OK" else ascii "FAIL") 2, Sys.close 4] ∧
    writes_on 4 (main_loop_body 1 ⟨some 4, some [65], env_ok, 2⟩).calls =
      [if (0 : Int) = 0 then ascii "OK" else ascii "FAIL"] ∧
    ((0 : Int) = 0 ∨ (0 : Int) = -1) ∧
    (ascii "OK").length = 2 ∧ (ascii "FAIL").length = 4 :=
  response_token 1 ⟨some 4, some [65], env_ok, 2⟩ 4 0 rfl (by decide) (by decide)
    (fun pipefd h => by
      have h2 : pipefd = (5, 6) := by simpa [env_ok] using h.symm
      rw [h2]; decide)

/-! ## C5: a failed write on the pipe -/

/-- C5 at the failing input: the ruleset `x`, whose only write on the pipe
returns -1, while the tool is present and the child exits with code 0.
`apply_ruleset` returns 0 and the client is sent `OK`. -/
theorem write_error_answers_ok :
    (apply_ruleset 1 env_write_error (request_buffer (some [120]))).parent =
      [Sys.pipe (some (5, 6)), Sys.fork (some 100), Sys.close 5,
       Sys.write 6 [120] (-1),
       Sys.access "/usr/sbin/nft" 0, Sys.close 6, Sys.waitpid 100 0] ∧
    (apply_ruleset 1 env_write_error (request_buffer (some [120]))).ret = some 0 ∧
    writes_on 4 (main_loop_body 1 ⟨some 4, some [120], env_write_error, 2⟩).calls
      = [ascii "OK"] := by
  decide

/-! ## C7: the payload cap -/

theorem bytes_read_le (incoming : Option (List Byte)) :
    bytes_read incoming ≤ ((BUF_SIZE - 1 : Nat) : Int) := by
  cases incoming with
  | none => simp only [bytes_read, sys_read]; omega
  | some avail =>
    rw [bytes_read_some]
    have : (avail.take (BUF_SIZE - 1)).length ≤ BUF_SIZE - 1 := by
      rw [List.length_take]; exact Nat.min_le_left _ _
    exact_mod_cast this

theorem strlen_request_buffer_none : strlen (request_buffer none) = 0 := by
  have h : zero_buffer = 0 :: List.replicate (BUF_SIZE - 1) 0 := by
    unfold zero_buffer
    rw [show BUF_SIZE = (BUF_SIZE - 1) + 1 from rfl, List.replicate_succ]
    rfl
  simp [request_buffer, bytes_read, sys_read, h, strlen, cstr]

/-- C7 as stated fails on a request of 8192 bytes without NUL: the read returns
8191, and the C string passed to `apply_ruleset` has 8191 bytes, not 8192. -/
theorem cap_is_not_8192 :
    (List.replicate 8192 (65 : Byte)).length = 8192 ∧
    bytes_read (some (List.replicate 8192 65)) = 8191 ∧
    strlen (request_buffer (some (List.replicate 8192 65))) = 8191 ∧
    cstr (request_buffer (some (List.replicate 8192 65))) ≠ List.replicate 8192 65 := by
  have hcstr : cstr (request_buffer (some (List.replicate 8192 65)))
      = List.replicate 8191 65 := by
    rw [cstr_request_buffer]
    have ht : (List.replicate 8192 (65 : Byte)).take (BUF_SIZE - 1) = List.replicate 8191 65 := by
      rw [List.take_replicate]; rfl
    rw [ht]
    apply cstr_of_no_nul
    intro b hb
    rw [List.mem_replicate] at hb
    rw [hb.2]; decide
  refine ⟨List.length_replicate _ _, ?_, ?_, ?_⟩
  · rw [bytes_read_some, List.take_replicate, List.length_replicate]; rfl
  · unfold strlen; rw [hcstr, List.length_replicate]
  · rw [hcstr]
    intro h
    have := congrArg List.length h
    rw [List.length_replicate, List.length_replicate] at this
    exact absurd this (by decide)

/-- C7 (amended). The listener reads at most 8191 bytes (`BUF_SIZE - 1`) from a
connection and hands at most 8191 bytes to `apply_ruleset`; a request of
exactly 8191 bytes with no NUL byte, delivered by one read, is accepted (the
read returns 8191) and all its 8191 bytes are passed to `apply_ruleset`. -/
theorem payload_cap (avail : List Byte)
    (hlen : avail.length = BUF_SIZE - 1) (hnul : ∀ b ∈ avail, b ≠ 0) :
    BUF_SIZE - 1 = 8191 ∧
    (∀ incoming, bytes_read incoming ≤ 8191 ∧ strlen (request_buffer incoming) ≤ 8191) ∧
    bytes_read (some avail) = 8191 ∧
    cstr (request_buffer (some avail)) = avail := by
  have htake : avail.take (BUF_SIZE - 1) = avail := List.take_of_length_le (by omega)
  refine ⟨rfl, ?_, ?_, ?_⟩
  · intro incoming
    refine ⟨bytes_read_le incoming, ?_⟩
    cases incoming with
    | none => rw [strlen_request_buffer_none]; omega
    | some more => exact strlen_request_buffer_le more
  · rw [bytes_read_some, htake, hlen]; rfl
  · rw [cstr_request_buffer, htake]
    exact cstr_of_no_nul _ hnul

/-- C7 (amended) at a concrete input: 8191 bytes `A`. -/
theorem payload_cap_witness :
    BUF_SIZE - 1 = 8191 ∧
    (∀ incoming, bytes_read incoming ≤ 8191 ∧ strlen (request_buffer incoming) ≤ 8191) ∧
    bytes_read (some (List.replicate 8191 65)) = 8191 ∧
    cstr (request_buffer (some (List.replicate 8191 65))) = List.replicate 8191 65 :=
  payload_cap (List.replicate 8191 65) (List.length_replicate _ _)
    (fun b hb => by rw [List.mem_replicate] at hb; rw [hb.2]; decide)

/-! ## C8: an empty or failed read -/

/-- C8. For every accepted connection whose read returns zero or a negative
value, the iteration consists of the accept, the read and the close of the
connection: no write on the connection, no call of `apply_ruleset` (no pipe,
no fork, no child), and the loop goes on with the next accept. -/
theorem empty_read_no_response (fuel : Nat) (c : Conn) (client_fd : Nat) (rest : List Conn)
    (hacc : c.accept_ret = some client_fd) (hread : bytes_read c.incoming ≤ 0) :
    main_loop_body fuel c =
      ⟨[Sys.accept (some client_fd),
        Sys.read client_fd (BUF_SIZE - 1) (bytes_read c.incoming),
        Sys.close client_fd], [], true⟩ ∧
    writes_on client_fd (main_loop_body fuel c).calls = [] ∧
    main_loop fuel (c :: rest) =
      ⟨[Sys.accept (some client_fd),
        Sys.read client_fd (BUF_SIZE - 1) (bytes_read c.incoming),
        Sys.close client_fd] ++ (main_loop fuel rest).calls,
       (main_loop fuel rest).children, (main_loop fuel rest).finished⟩ := by
  have hnot : ¬ (bytes_read c.incoming > 0) := by omega
  have hbody : main_loop_body fuel c =
      ⟨[Sys.accept (some client_fd),
        Sys.read client_fd (BUF_SIZE - 1) (bytes_read c.incoming),
        Sys.close client_fd], [], true⟩ := by
    unfold main_loop_body
    simp [hacc, hnot]
  refine ⟨hbody, ?_, ?_⟩
  · rw [hbody]; simp [writes_on]
  · simp [main_loop, hbody]

/-- C8 at a concrete input: a client that disconnects without sending. -/
theorem empty_read_no_response_witness :
    main_loop_body 1 ⟨some 4, some [], env_ok, 0⟩ =
      ⟨[Sys.accept (some 4), Sys.read 4 (BUF_SIZE - 1) (bytes_read (some [])),
        Sys.close 4], [], true⟩ ∧
    writes_on 4 (main_loop_body 1 ⟨some 4, some [], env_ok, 0⟩).calls = [] ∧
    main_loop 1 (⟨some 4, some [], env_ok, 0⟩ :: [⟨some 4, none, env_ok, 0⟩]) =
      ⟨[Sys.accept (some 4), Sys.read 4 (BUF_SIZE - 1) (bytes_read (some [])),
        Sys.close 4] ++ (main_loop 1 [⟨some 4, none, env_ok, 0⟩]).calls,
       (main_loop 1 [⟨some 4, none, env_ok, 0⟩]).children,
       (main_loop 1 [⟨some 4, none, env_ok, 0⟩]).finished⟩ :=
  empty_read_no_response 1 ⟨some 4, some [], env_ok, 0⟩ 4 [⟨some 4, none, env_ok, 0⟩]
    rfl (by decide)

/-! ## C6 and C10: the return on a missing tool -/

theorem unreaped_append (l₁ l₂ : List Sys) :
    ∀ pids, unreaped pids (l₁ ++ l₂) = unreaped (unreaped pids l₁) l₂ := by
  induction l₁ with
  | nil => intro pids; rfl
  | cons a t ih =>
    intro pids
    cases a with
    | fork ret => cases ret <;> simp [unreaped, ih]
    | _ => simp [unreaped, ih]

theorem open_fds_append (l₁ l₂ : List Sys) :
    ∀ fds, open_fds fds (l₁ ++ l₂) = open_fds (open_fds fds l₁) l₂ := by
  induction l₁ with
  | nil => intro fds; rfl
  | cons a t ih =>
    intro fds
    cases a with
    | pipe ret => cases ret <;> simp [open_fds, ih]
    | accept ret => cases ret <;> simp [open_fds, ih]
    | _ => simp [open_fds, ih]

/-- The write loop forks and reaps nothing. -/
theorem unreaped_write_loop (pw : Nat → Option Nat) (fd : Nat) (ruleset : List Byte)
    (pids : List Nat) :
    ∀ (fuel k : Nat) (t : Int), unreaped pids (write_loop pw fd ruleset fuel k t).1 = pids := by
  intro fuel
  induction fuel with
  | zero => intro k t; simp [write_loop, unreaped]
  | succ fuel ih =>
    intro k t
    unfold write_loop
    by_cases hlt : t < (strlen ruleset : Int)
    · by_cases hw : sys_write (pw k) ((strlen ruleset : Int) - t).toNat < 0
      · simp [hlt, hw, unreaped]
      · simp [hlt, hw, unreaped, ih]
    · simp [hlt, unreaped]

/-- The write loop opens and closes no descriptor. -/
theorem open_fds_write_loop (pw : Nat → Option Nat) (fd : Nat) (ruleset : List Byte)
    (fds : List Nat) :
    ∀ (fuel k : Nat) (t : Int), open_fds fds (write_loop pw fd ruleset fuel k t).1 = fds := by
  intro fuel
  induction fuel with
  | zero => intro k t; simp [write_loop, open_fds]
  | succ fuel ih =>
    intro k t
    unfold write_loop
    by_cases hlt : t < (strlen ruleset : Int)
    · by_cases hw : sys_write (pw k) ((strlen ruleset : Int) - t).toNat < 0
      · simp [hlt, hw, open_fds]
      · simp [hlt, hw, open_fds, ih]
    · simp [hlt, open_fds]

/-- On the paths other than the missing tool (the tool is found), a call of
`apply_ruleset` that returns has waited on the child it forked. -/
theorem apply_ruleset_reaps_when_tool_found (fuel : Nat) (env : ApplyEnv)
    (ruleset : List Byte) (pids : List Nat)
    (hfresh : ∀ pid, env.fork_ret = some pid → pid ∉ pids)
    (haccess : env.access_ret = 0)
    (hret : (apply_ruleset fuel env ruleset).ret ≠ none) :
    unreaped pids (apply_ruleset fuel env ruleset).parent = pids := by
  unfold apply_ruleset at hret ⊢
  cases hp : env.pipe_ret with
  | none => rfl
  | some pipefd =>
    cases hf : env.fork_ret with
    | none => rfl
    | some pid =>
      have hpid : pid ∉ pids := hfresh pid hf
      simp only [hp, hf, haccess] at hret ⊢
      cases hdone : (write_loop env.pipe_write pipefd.2 ruleset fuel 0 0).2 with
      | false => simp [hdone] at hret
      | true =>
        by_cases hst : (WIFEXITED env.status && WEXITSTATUS env.status == 0) = true <;>
          simp [hst, unreaped_append, unreaped, unreaped_write_loop,
            List.erase_append_right _ hpid]

/-- On the paths other than the missing tool (the tool is found), a call of
`apply_ruleset` that returns leaves the open descriptors as they were. -/
theorem apply_ruleset_closes_pipe_when_tool_found (fuel : Nat) (env : ApplyEnv)
    (ruleset : List Byte) (fds : List Nat)
    (hfresh : ∀ pipefd, env.pipe_ret = some pipefd →
      pipefd.1 ∉ fds ∧ pipefd.2 ∉ fds ∧ pipefd.1 ≠ pipefd.2)
    (haccess : env.access_ret = 0)
    (hret : (apply_ruleset fuel env ruleset).ret ≠ none) :
    open_fds fds (apply_ruleset fuel env ruleset).parent = fds := by
  unfold apply_ruleset at hret ⊢
  cases hp : env.pipe_ret with
  | none => rfl
  | some pipefd =>
    obtain ⟨hr, hw, hrw⟩ := hfresh pipefd hp
    have hwr : pipefd.2 ≠ pipefd.1 := fun h => hrw h.symm
    have e1 : (fds ++ [pipefd.1, pipefd.2]).erase pipefd.1 = fds ++ [pipefd.2] := by
      rw [List.erase_append_right _ hr]; simp
    have e2 : (fds ++ [pipefd.2]).erase pipefd.2 = fds := by
      rw [List.erase_append_right _ hw]; simp
    cases hf : env.fork_ret with
    | none => simp [open_fds, e1, e2]
    | some pid =>
      simp only [hp, hf, haccess] at hret ⊢
      cases hdone : (write_loop env.pipe_write pipefd.2 ruleset fuel 0 0).2 with
      | false => simp [hdone] at hret
      | true =>
        by_cases hst : (WIFEXITED env.status && WEXITSTATUS env.status == 0) = true <;>
          simp [hst, open_fds_append, open_fds, open_fds_write_loop, e1, e2]

/-- C6 at the failing input: the ruleset `x` when `access` reports the tool
missing.  `apply_ruleset` returns -1 after `access`, without `waitpid`: the
child 100 it forked is not waited on when the call returns, nor when the
iteration ends and the next connection is accepted. -/
theorem missing_tool_child_not_reaped :
    (apply_ruleset 1 env_no_tool (request_buffer (some [120]))).parent =
      [Sys.pipe (some (5, 6)), Sys.fork (some 100), Sys.close 5,
       Sys.write 6 [120] 1, Sys.access "/usr/sbin/nft" (-1)] ∧
    (apply_ruleset 1 env_no_tool (request_buffer (some [120]))).ret = some (-1) ∧
    unreaped [] (apply_ruleset 1 env_no_tool (request_buffer (some [120]))).parent = [100] ∧
    unreaped [] (main_loop 1 [⟨some 4, some [120], env_no_tool, 4⟩]).calls = [100] ∧
    (main_loop 1 [⟨some 4, some [120], env_no_tool, 4⟩]).finished = true := by
  decide

/-- C10 at the failing input: the ruleset `x` when `access` reports the tool
missing.  `apply_ruleset` returns -1 after `access`, without closing
`pipefd[1]`: descriptor 6 stays open in the daemon after the call. -/
theorem missing_tool_pipe_left_open :
    (apply_ruleset 1 env_no_tool (request_buffer (some [120]))).ret = some (-1) ∧
    open_fds [0, 1, 2, 3, 4] (apply_ruleset 1 env_no_tool (request_buffer (some [120]))).parent
      = [0, 1, 2, 3, 4, 6] ∧
    open_fds [0, 1, 2, 3] (main_loop 1 [⟨some 4, some [120], env_no_tool, 4⟩]).calls
      = [0, 1, 2, 3, 6] := by
  decide

end Vigil
